import Mathlib

set_option maxRecDepth 10000

/-!
Verification of the approvr proposal/approval core (approvr-agent.js).

The JavaScript source is shallowly embedded: JS runtime values that the core
inspects are modelled by `JSValue`; the collaborating Hedera tool calls are
modelled by a `ToolOutcome` parameter (a returned value, or a thrown error);
`JSON.parse` is modelled by `jsonParse`, a recursive-descent parser for the
JSON fragment the core exchanges (strings, objects, arrays, literals and
numbers; numbers and booleans are opaque since the core never reads them).
String operations of the source are modelled over `String.data` character
lists.
-/

/-- Model of a JavaScript runtime value as observed by the core.
`vobj` carries the association list of its fields together with the string
its `toString()` produces (plain parsed objects produce "[object Object]";
SDK objects such as `TopicId` produce the identifier text).  `vother` stands
for the remaining primitives (numbers, undefined), whose payload the core
never inspects. -/
inductive JSValue where
  | vstr (s : String)
  | vbool (b : Bool)
  | vnull
  | varr (elems : List JSValue)
  | vobj (fields : List (String × JSValue)) (toStr : String)
  | vother

/-- Outcome of invoking a collaborator tool: a returned value or a thrown
error (its `.message` text). -/
inductive ToolOutcome where
  | ok (v : JSValue)
  | threw (msg : String)

/-- JS property read on a plain object: later duplicate keys overwrite
earlier ones, hence the reversed first-match lookup. -/
def getField (fields : List (String × JSValue)) (k : String) : Option JSValue :=
  match fields.reverse.find? (fun p => p.1 == k) with
  | some p => some p.2
  | none => none

/-- JS property read `v[k]`: only plain objects expose the fields the core
reads; `undefined` is modelled as `none`. -/
def getProp (v : JSValue) (k : String) : Option JSValue :=
  match v with
  | .vobj fields _ => getField fields k
  | _ => none

/-- `v && typeof v === 'object'`: non-null objects and arrays. -/
def isTruthyObject : JSValue → Bool
  | .vobj _ _ => true
  | .varr _ => true
  | _ => false

/-- `typeof o === 'string'` on an optional property. -/
def optIsString : Option JSValue → Bool
  | some (.vstr _) => true
  | _ => false

/-- Truthy-object test on an optional property (absent is `undefined`,
hence falsy). -/
def optIsTruthyObject : Option JSValue → Bool
  | some v => isTruthyObject v
  | none => false

/-- Read an optional property as a string, when it is one. -/
def optAsString : Option JSValue → Option String
  | some (.vstr s) => some s
  | _ => none

/-- `v.toString()`.  Plain objects carry their stringification in the
model; strings stringify to themselves.  The comma-join stringification of
arrays is simplified to "" — no claim inspects an array's stringification,
and the equivalence theorems apply the same function on both sides. -/
def jsToString : JSValue → String
  | .vobj _ ts => ts
  | .vstr s => s
  | _ => ""

/-- `s.startsWith(p)` over character lists. -/
def jsStartsWith (p s : String) : Bool :=
  p.data.isPrefixOf s.data

/-- `s.substring(n)` (by characters). -/
def strDrop (n : Nat) (s : String) : String :=
  ⟨s.data.drop n⟩

/-- The whitespace class of the JS regex `\s` and of
`String.prototype.trim`: ECMAScript WhiteSpace together with the line
terminators. -/
def jsIsWs (c : Char) : Bool :=
  c = ' ' || c = '\t' || c = '\n' || c = '\r' || c.val = 0x0b || c.val = 0x0c ||
  c.val = 0xa0 || c.val = 0xfeff || c.val = 0x1680 ||
  (0x2000 ≤ c.val && c.val ≤ 0x200a) || c.val = 0x2028 || c.val = 0x2029 ||
  c.val = 0x202f || c.val = 0x205f || c.val = 0x3000

/-- The ECMAScript line terminators, which the JS regex `.` (without the
`s` flag) never matches. -/
def isLineTerm (c : Char) : Bool :=
  c = '\n' || c = '\r' || c.val = 0x2028 || c.val = 0x2029

/-- Character-list trim: removes leading and trailing JS whitespace. -/
def trimChars (l : List Char) : List Char :=
  ((l.dropWhile jsIsWs).reverse.dropWhile jsIsWs).reverse

/-- `s.trim()`. -/
def jsTrim (s : String) : String :=
  ⟨trimChars s.data⟩

/-- `s.includes(c)` for a single character. -/
def jsIncludes (s : String) (c : Char) : Bool :=
  s.data.contains c

/-- `s.split('\n')[0]`: the text before the first newline. -/
def firstLine (s : String) : String :=
  ⟨s.data.takeWhile (fun c => c ≠ '\n')⟩

/-- `arr.join(sep)`. -/
def jsJoin (sep : String) : List String → String
  | [] => ""
  | [x] => x
  | x :: rest => x ++ sep ++ jsJoin sep rest

/-- Skip JSON whitespace. -/
def skipWs : List Char → List Char
  | [] => []
  | c :: rest => if c.isWhitespace then skipWs rest else c :: rest

/-- JSON string escapes recognised by the model (self-escaping characters
first, then the named control characters). -/
def escChar (e : Char) : Option Char :=
  if e = '"' || e = '\\' || e = '/' then some e
  else if e = 'n' then some '\n'
  else if e = 't' then some '\t'
  else if e = 'r' then some '\r'
  else if e = 'b' then some (Char.ofNat 0x08)
  else if e = 'f' then some (Char.ofNat 0x0c)
  else none

/-- Parse the body of a JSON string (after the opening quote), returning
the decoded string and the rest of the input. -/
def parseStringBody : List Char → Option (String × List Char)
  | [] => none
  | '"' :: rest => some ("", rest)
  | '\\' :: e :: rest =>
    match escChar e with
    | none => none
    | some c =>
      match parseStringBody rest with
      | none => none
      | some (s, r) => some (⟨c :: s.data⟩, r)
  | c :: rest =>
    match parseStringBody rest with
    | none => none
    | some (s, r) => some (⟨c :: s.data⟩, r)

/-- Characters that may continue a JSON number. -/
def isNumChar (c : Char) : Bool :=
  c.isDigit || c = '-' || c = '+' || c = '.' || c = 'e' || c = 'E'

/-- Parser mode: a value, the members of an object, or the elements of an
array (with the part already parsed). -/
inductive PMode where
  | value
  | members (acc : List (String × JSValue))
  | elems (acc : List JSValue)

/-- Fuel-indexed recursive-descent JSON parser (model of `JSON.parse`).
Parsed plain objects stringify to "[object Object]", as in JS. -/
def parseStep : Nat → PMode → List Char → Option (JSValue × List Char)
  | 0, _, _ => none
  | fuel+1, .value, cs =>
    match skipWs cs with
    | '"' :: rest =>
      match parseStringBody rest with
      | none => none
      | some (s, r) => some (.vstr s, r)
    | '{' :: rest =>
      match skipWs rest with
      | '}' :: r2 => some (.vobj [] "[object Object]", r2)
      | r2 => parseStep fuel (.members []) r2
    | '[' :: rest =>
      match skipWs rest with
      | ']' :: r2 => some (.varr [], r2)
      | r2 => parseStep fuel (.elems []) r2
    | 't' :: 'r' :: 'u' :: 'e' :: rest => some (.vbool true, rest)
    | 'f' :: 'a' :: 'l' :: 's' :: 'e' :: rest => some (.vbool false, rest)
    | 'n' :: 'u' :: 'l' :: 'l' :: rest => some (.vnull, rest)
    | c :: rest =>
      if c.isDigit || c = '-' then some (.vother, rest.dropWhile isNumChar)
      else none
    | [] => none
  | fuel+1, .members acc, cs =>
    match skipWs cs with
    | '"' :: rest =>
      match parseStringBody rest with
      | none => none
      | some (k, r1) =>
        match skipWs r1 with
        | ':' :: r2 =>
          match parseStep fuel .value r2 with
          | none => none
          | some (v, r3) =>
            match skipWs r3 with
            | ',' :: r4 => parseStep fuel (.members (acc ++ [(k, v)])) r4
            | '}' :: r4 => some (.vobj (acc ++ [(k, v)]) "[object Object]", r4)
            | _ => none
        | _ => none
    | _ => none
  | fuel+1, .elems acc, cs =>
    match parseStep fuel .value cs with
    | none => none
    | some (v, r1) =>
      match skipWs r1 with
      | ',' :: r2 => parseStep fuel (.elems (acc ++ [v])) r2
      | ']' :: r2 => some (.varr (acc ++ [v]), r2)
      | _ => none

/-- Model of `JSON.parse`: parse a complete JSON document. -/
def jsonParse (s : String) : Option JSValue :=
  match parseStep (2 * s.data.length + 2) .value s.data with
  | some (v, rest) => if (skipWs rest).isEmpty then some v else none
  | none => none

/-- The topicId-extraction cascade of `createProposal` (lines 132-172 of the
source), applied to the parsed response.  Four else-if priorities:
(1) string `receipt.topicId`; (2) string `topicId`; (3) object `topicId`
whose stringification is nonempty and contains a dot; (4) object
`receipt.topicId` with the same stringification check.  A priority whose
guard fires but whose validation fails leaves the result `none`. -/
def extractFromParsed (p : JSValue) : Option String :=
  if isTruthyObject p then
    if optIsTruthyObject (getProp p "receipt") &&
       optIsString ((getProp p "receipt").bind (fun r => getProp r "topicId")) then
      optAsString ((getProp p "receipt").bind (fun r => getProp r "topicId"))
    else if optIsString (getProp p "topicId") then
      optAsString (getProp p "topicId")
    else if optIsTruthyObject (getProp p "topicId") then
      match getProp p "topicId" with
      | some t =>
        if decide (jsToString t ≠ "") && jsIncludes (jsToString t) '.' then
          some (jsToString t)
        else none
      | none => none
    else if optIsTruthyObject (getProp p "receipt") &&
            optIsTruthyObject ((getProp p "receipt").bind (fun r => getProp r "topicId")) then
      match (getProp p "receipt").bind (fun r => getProp r "topicId") with
      | some t =>
        if decide (jsToString t ≠ "") && jsIncludes (jsToString t) '.' then
          some (jsToString t)
        else none
      | none => none
    else none
  else none

/-- The `if (!topicId) throw` check closing the extraction (line 174): an
absent or empty (falsy) identifier raises the extraction error. -/
def finishTopicId : Option String → Except String String
  | some id => if id = "" then .error "Failed to extract Topic ID string from createTopic response." else .ok id
  | none => .error "Failed to extract Topic ID string from createTopic response."

/-- Normalization of the create-topic response to a topic identifier
(lines 109-177): a string response is JSON-parsed (unparsable raises), an
object response is used directly, anything else raises; then the
extraction cascade and the falsy check run. -/
def extractTopicId (topicResponse : JSValue) : Except String String :=
  match topicResponse with
  | .vstr s =>
    match jsonParse s with
    | none => .error "Tool response was a string but could not be parsed as JSON."
    | some parsed => finishTopicId (extractFromParsed parsed)
  | .vobj fields ts => finishTopicId (extractFromParsed (.vobj fields ts))
  | .varr elems => finishTopicId (extractFromParsed (.varr elems))
  | _ => .error "Tool response was neither a string nor a valid object."

/-- The initial proposal message submitted on creation (line 186). -/
def initialMessage (proposalDescription : String) (approvers : List String) (threshold : Nat) : String :=
  "Proposal: " ++ proposalDescription ++ "\nApprovers: " ++ jsJoin ", " approvers ++ "\nThreshold: " ++ toString threshold

/-- Result record of `createProposal`. -/
structure CreateResult where
  topicId : Option String
  status : String
  message : String

/-- `createProposal` (lines 91-199).  The two collaborator calls — topic
creation and the append of the initial message — are modelled by the two
`ToolOutcome` inputs; any thrown error or extraction failure is caught and
converted to the error result shape. -/
def createProposal (proposalDescription : String) (approvers : List String) (threshold : Nat)
    (createOutcome : ToolOutcome) (submitOutcome : ToolOutcome) : CreateResult :=
  match createOutcome with
  | .threw e => { topicId := none, status := "error", message := "Failed to create proposal: " ++ e }
  | .ok resp =>
    match extractTopicId resp with
    | .error e => { topicId := none, status := "error", message := "Failed to create proposal: " ++ e }
    | .ok tid =>
      match submitOutcome with
      | .threw e => { topicId := none, status := "error", message := "Failed to create proposal: " ++ e }
      | .ok _ => { topicId := some tid, status := "success", message := "Proposal created. Share this Topic ID: " ++ tid }

/-- Result record of `submitApproval`. -/
structure SubmitResult where
  status : String
  message : String

/-- The approval message format (line 212). -/
def approvalMessage (approverAccountId : String) : String :=
  "APPROVE:" ++ approverAccountId

/-- `submitApproval` (lines 207-227): the append call is modelled by the
`ToolOutcome` input; a thrown error is caught into the error result. -/
def submitApproval (topicId approverAccountId : String) (submitOutcome : ToolOutcome) : SubmitResult :=
  match submitOutcome with
  | .threw e => { status := "error", message := "Failed to submit approval: " ++ e }
  | .ok _ => { status := "success", message := "Approval recorded for " ++ approverAccountId ++ "." }

/-- Extraction of the messages array from the (already parsed) read
response (lines 264-273): an array is used directly; an object's
array-valued `messages` field is used; otherwise the initial `[]` stands. -/
def messagesArrayOf (v : JSValue) : List JSValue :=
  match v with
  | .varr xs => xs
  | .vobj fields _ =>
    match getField fields "messages" with
    | some (.varr xs) => xs
    | _ => []
  | _ => []

/-- Normalization of the read-messages response (lines 249-279): a string
response is JSON-parsed (unparsable raises), then the messages array is
extracted; the final `Array.isArray` guard can never fail since `messages`
is initialised to `[]`. -/
def extractMessages (messagesResponse : JSValue) : Except String (List JSValue) :=
  match messagesResponse with
  | .vstr s =>
    match jsonParse s with
    | none => .error "get_topic_messages_query_tool returned an unparsable string."
    | some parsed => .ok (messagesArrayOf parsed)
  | v => .ok (messagesArrayOf v)

/-- The content string of a message entry: entries that are not objects
with a string `message` field yield `none` and are skipped by every
consumer (lines 285-287, 341-342). -/
def msgContent? (m : JSValue) : Option String :=
  match m with
  | .vobj fields _ =>
    match getField fields "message" with
    | some (.vstr s) => some s
    | _ => none
  | _ => none

/-- The message contents a normalized response carries, in order. -/
def messageContents (msgs : List JSValue) : List String :=
  msgs.filterMap msgContent?

/-- `messageContent.substring("APPROVE:".length).trim()` (line 292). -/
def approveAccountId (content : String) : String :=
  jsTrim (strDrop 8 content)

/-- `Set.add`: insertion-ordered, duplicates ignored. -/
def setAdd (acc : List String) (x : String) : List String :=
  if acc.contains x then acc else acc ++ [x]

/-- The approval-counting loop (lines 282-305): walk the messages, and for
each `APPROVE:`-prefixed content whose trimmed remainder is a configured
approver, insert that identifier into the set. -/
def collectApprovals (approvers : List String) : List JSValue → List String → List String
  | [], acc => acc
  | m :: rest, acc =>
    match msgContent? m with
    | some content =>
      if jsStartsWith "APPROVE:" content then
        if approvers.contains (approveAccountId content) then
          collectApprovals approvers rest (setAdd acc (approveAccountId content))
        else collectApprovals approvers rest acc
      else collectApprovals approvers rest acc
    | none => collectApprovals approvers rest acc

/-- The regex match `descLine.match(/^Proposal:\s*(.+)$/)` (line 351),
returning capture group 1.  After the literal head, greedy `\s*`
backtracks just enough to leave a nonempty remainder reaching the end of
the string; since `.` never matches a line terminator and larger
backtracking only adds characters to the remainder, the match succeeds
exactly when that maximal-backtrack remainder is free of line
terminators, and it is the captured group. -/
def proposalDescMatch (line : String) : Option String :=
  if jsStartsWith "Proposal:" line then
    if (line.data.drop 9).isEmpty then none
    else if ((line.data.drop 9).dropWhile jsIsWs).isEmpty then
      if ((line.data.drop 9).drop ((line.data.drop 9).length - 1)).any isLineTerm then none
      else some ⟨(line.data.drop 9).drop ((line.data.drop 9).length - 1)⟩
    else
      if ((line.data.drop 9).dropWhile jsIsWs).any isLineTerm then none
      else some ⟨(line.data.drop 9).dropWhile jsIsWs⟩
  else none

/-- Description decoding of a `Proposal:`-prefixed content (lines 346-355):
first line, regex match, trim; `none` when the regex fails (the report
then keeps its placeholder). -/
def decodeProposalDescription (content : String) : Option String :=
  match proposalDescMatch (firstLine content) with
  | some g => some (jsTrim g)
  | none => none

/-- Whether a message entry is Proposal-shaped (object, string `message`
content starting with `Proposal:`). -/
def isProposalMsg (m : JSValue) : Bool :=
  match msgContent? m with
  | some content => jsStartsWith "Proposal:" content
  | none => false

/-- The proposal-details loop of the approved report (lines 336-364):
first `Proposal:`-prefixed message wins and also switches the displayed
approver list and threshold from their defaults (`[]`, "N/A") to the
caller-supplied values; absence of such a message keeps the placeholder. -/
def findProposalInfo (approvers : List String) (threshold : Nat) : List JSValue → String × List String × String
  | [] => ("Proposal details not found.", [], "N/A")
  | m :: rest =>
    match msgContent? m with
    | some content =>
      if jsStartsWith "Proposal:" content then
        ((decodeProposalDescription content).getD "Proposal details not found.", approvers, toString threshold)
      else findProposalInfo approvers threshold rest
    | none => findProposalInfo approvers threshold rest

/-- Lexicographic strict comparison on character lists by code point,
modelling the default JS string ordering used by `Array.prototype.sort`. -/
def strLtChars : List Char → List Char → Bool
  | [], [] => false
  | [], _ :: _ => true
  | _ :: _, [] => false
  | a :: as, b :: bs =>
    if a.val < b.val then true
    else if b.val < a.val then false
    else strLtChars as bs

/-- `a <= b` on strings. -/
def strLeB (a b : String) : Bool :=
  ! strLtChars b.data a.data

/-- Sorted insertion for `sortStr`. -/
def insertSorted (a : String) : List String → List String
  | [] => [a]
  | b :: rest => if strLeB a b then a :: b :: rest else b :: insertSorted a rest

/-- `arr.sort()`: lexicographically sorted copy (insertion sort). -/
def sortStr (l : List String) : List String :=
  l.foldr insertSorted []

/-- One line of the approver enumeration (lines 375-378). -/
def approverLine (validApprovals : List String) (a : String) : String :=
  "- " ++ a ++ " " ++ (if validApprovals.contains a then "(approved)" else "(not approved)") ++ "\n"

/-- The detailed approved report (lines 329-384). -/
def approvedMessage (topicId : String) (approvers : List String) (threshold : Nat)
    (msgs : List JSValue) (validApprovals : List String) (approvalCount : Nat) : String :=
  "✅ Proposal Approved!\n\n" ++
  "The required number of approvals (" ++ toString approvalCount ++ "/" ++
    (findProposalInfo approvers threshold msgs).2.2 ++
    ") has been reached for the proposal in topic `" ++ topicId ++ "`.\n\n" ++
  "Proposal Details:\n" ++ (findProposalInfo approvers threshold msgs).1 ++ "\n\n" ++
  "Approvers:\n" ++
  (sortStr (findProposalInfo approvers threshold msgs).2.1).foldl
    (fun acc a => acc ++ approverLine validApprovals a) "" ++
  "\nNext Steps:\n" ++
  "The action described in the proposal can now be executed manually by the relevant party, as consensus has been recorded on Hedera.\n" ++
  "🔗 View the immutable approval record on HashScan: https://hashscan.io/testnet/topic/" ++ topicId ++ "\n" ++
  "The topic messages provide cryptographic proof of consensus."

/-- The not-yet-approved tally message (lines 387-391). -/
def notApprovedMessage (approvalCount threshold : Nat) : String :=
  "Current tally: " ++ toString approvalCount ++ "/" ++ toString threshold ++ " approvals." ++
  " Need " ++ toString (threshold - approvalCount) ++ " more approval(s)."

/-- Result record of `tallyApprovals`. -/
structure TallyResult where
  status : String
  approvals : Nat
  isApproved : Bool
  message : String

/-- The successful branch of `tallyApprovals` after the messages array is
in hand (lines 281-403). -/
def tallySuccess (topicId : String) (approvers : List String) (threshold : Nat)
    (msgs : List JSValue) : TallyResult :=
  { status := "success",
    approvals := (collectApprovals approvers msgs []).length,
    isApproved := decide ((collectApprovals approvers msgs []).length ≥ threshold),
    message :=
      if decide ((collectApprovals approvers msgs []).length ≥ threshold) then
        approvedMessage topicId approvers threshold msgs (collectApprovals approvers msgs [])
          (collectApprovals approvers msgs []).length
      else notApprovedMessage (collectApprovals approvers msgs []).length threshold }

/-- `tallyApprovals` (lines 237-409): the read call is modelled by the
`ToolOutcome` input; thrown errors and unparsable string responses are
caught into the error result shape. -/
def tallyApprovals (topicId : String) (approvers : List String) (threshold : Nat)
    (outcome : ToolOutcome) : TallyResult :=
  match outcome with
  | .threw e =>
    { status := "error", approvals := 0, isApproved := false, message := "Failed to tally approvals: " ++ e }
  | .ok resp =>
    match extractMessages resp with
    | .error e =>
      { status := "error", approvals := 0, isApproved := false, message := "Failed to tally approvals: " ++ e }
    | .ok msgs => tallySuccess topicId approvers threshold msgs

/-- `b` occurs as a contiguous substring of `s` (stated over character
lists so that it is decidable at concrete inputs). -/
def substrOf (b s : String) : Prop :=
  b.data <:+: s.data

instance (b s : String) : Decidable (substrOf b s) :=
  inferInstanceAs (Decidable (b.data <:+: s.data))

/-- Written from the claim: the identifiers `x` such that some message's
content starts with `APPROVE:` with trimmed remainder `x`, and `x` is a
configured approver (as a list of occurrences; its `toFinset` is the set
of the claim). -/
def approvalIdsOf (approvers : List String) (msgs : List JSValue) : List String :=
  ((msgs.filterMap msgContent?).filterMap
      (fun c => if jsStartsWith "APPROVE:" c then some (approveAccountId c) else none)).filter
    (fun x => approvers.contains x)

/-- Written from the claim (C5 shape 1): a string-typed identifier nested
under a `receipt` field. -/
def claimShape1 (p : JSValue) : Option String :=
  (getProp p "receipt").bind (fun r => optAsString (getProp r "topicId"))

/-- Written from the claim (C5 shape 2): a string-typed identifier at the
top level. -/
def claimShape2 (p : JSValue) : Option String :=
  optAsString (getProp p "topicId")

/-- Written from the claim (C5 shape 3): an object-typed identifier at the
top level whose stringification contains a separator character. -/
def claimShape3 (p : JSValue) : Option String :=
  (getProp p "topicId").bind (fun t =>
    if isTruthyObject t && jsIncludes (jsToString t) '.' then some (jsToString t) else none)

/-- Written from the claim (C5 shape 4): the same stringification check
nested under `receipt`. -/
def claimShape4 (p : JSValue) : Option String :=
  (getProp p "receipt").bind (fun r =>
    (getProp r "topicId").bind (fun t =>
      if isTruthyObject t && jsIncludes (jsToString t) '.' then some (jsToString t) else none))

/-- Written from the claim (C5), as stated: try the four shapes in order,
first match winning; fail when none match, when a string response does not
parse as JSON, or when the response is neither string nor object. -/
def claimExtract (topicResponse : JSValue) : Except String String :=
  match topicResponse with
  | .vstr s =>
    match jsonParse s with
    | none => .error "MalformedResponse"
    | some p =>
      match claimShape1 p <|> claimShape2 p <|> claimShape3 p <|> claimShape4 p with
      | some id => .ok id
      | none => .error "MalformedResponse"
  | .vobj fields ts =>
    match claimShape1 (.vobj fields ts) <|> claimShape2 (.vobj fields ts) <|>
          claimShape3 (.vobj fields ts) <|> claimShape4 (.vobj fields ts) with
    | some id => .ok id
    | none => .error "MalformedResponse"
  | .varr elems =>
    match claimShape1 (.varr elems) <|> claimShape2 (.varr elems) <|>
          claimShape3 (.varr elems) <|> claimShape4 (.varr elems) with
    | some id => .ok id
    | none => .error "MalformedResponse"
  | _ => .error "MalformedResponse"

/-- The amended shape chain: shape 3 is guarded by object-typedness alone —
when the guard fires but the stringification lacks the separator (or is
empty) the extraction fails without trying shape 4. -/
def claimChainAmended (p : JSValue) : Option String :=
  match claimShape1 p with
  | some id => some id
  | none =>
    match claimShape2 p with
    | some id => some id
    | none =>
      match getProp p "topicId" with
      | some t =>
        if isTruthyObject t then
          (if jsIncludes (jsToString t) '.' then some (jsToString t) else none)
        else claimShape4 p
      | none => claimShape4 p

/-- Written from the amended claim (C5): as `claimExtract`, except that
shape 3's guard blocks shape 4, and an extracted empty-string identifier
also fails. -/
def claimExtractAmended (topicResponse : JSValue) : Except String String :=
  match topicResponse with
  | .vstr s =>
    match jsonParse s with
    | none => .error "MalformedResponse"
    | some p =>
      match claimChainAmended p with
      | some id => if id = "" then .error "MalformedResponse" else .ok id
      | none => .error "MalformedResponse"
  | .vobj fields ts =>
    match claimChainAmended (.vobj fields ts) with
    | some id => if id = "" then .error "MalformedResponse" else .ok id
    | none => .error "MalformedResponse"
  | .varr elems =>
    match claimChainAmended (.varr elems) with
    | some id => if id = "" then .error "MalformedResponse" else .ok id
    | none => .error "MalformedResponse"
  | _ => .error "MalformedResponse"

/-- Written from the claim (C7): the enumerated approver list, sorted
lexicographically, each entry annotated by membership in the deduplicated
approval set. -/
def approverEnumeration (approvers validApprovals : List String) : String :=
  String.join ((sortStr approvers).map (approverLine validApprovals))

/-- Decidable form of "the `messages` field is not an array-valued field"
(for C10). -/
def noMessagesArray (fields : List (String × JSValue)) : Bool :=
  match getField fields "messages" with
  | some (.varr _) => false
  | _ => true

/-- A well-formed message entry with the given content. -/
def mkMsg (s : String) : JSValue :=
  .vobj [("message", .vstr s)] "[object Object]"

/-- The scenario log of the spec (§8). -/
def scenarioMsgs : List JSValue :=
  [mkMsg "Proposal: Buy gear\nApprovers: a,b,c\nThreshold: 2",
   mkMsg "APPROVE:a", mkMsg "APPROVE:b", mkMsg "APPROVE:a"]

theorem mem_setAdd (acc : List String) (y x : String) :
    x ∈ setAdd acc y ↔ x ∈ acc ∨ x = y := by
  by_cases h : y ∈ acc
  · simp only [setAdd]
    rw [if_pos (by simpa using h)]
    constructor
    · exact fun hx => Or.inl hx
    · rintro (hx | rfl) <;> [exact hx; exact h]
  · simp only [setAdd]
    rw [if_neg (by simpa using h)]
    simp [List.mem_append]

theorem nodup_setAdd (acc : List String) (y : String) (h : acc.Nodup) :
    (setAdd acc y).Nodup := by
  by_cases hy : y ∈ acc
  · simp only [setAdd]
    rw [if_pos (by simpa using hy)]
    exact h
  · simp only [setAdd]
    rw [if_neg (by simpa using hy)]
    simp [List.nodup_append, h, hy]

theorem length_le_setAdd (acc : List String) (y : String) :
    acc.length ≤ (setAdd acc y).length := by
  by_cases hy : y ∈ acc
  · simp only [setAdd]
    rw [if_pos (by simpa using hy)]
  · simp only [setAdd]
    rw [if_neg (by simpa using hy)]
    simp

theorem approvalIdsOf_cons (approvers : List String) (m : JSValue) (rest : List JSValue) :
    approvalIdsOf approvers (m :: rest) =
      match msgContent? m with
      | some c =>
        if jsStartsWith "APPROVE:" c then
          if approvers.contains (approveAccountId c) then
            approveAccountId c :: approvalIdsOf approvers rest
          else approvalIdsOf approvers rest
        else approvalIdsOf approvers rest
      | none => approvalIdsOf approvers rest := by
  unfold approvalIdsOf
  cases h : msgContent? m with
  | none => simp [List.filterMap_cons, h]
  | some c =>
    by_cases hs : jsStartsWith "APPROVE:" c = true
    · by_cases ha : approvers.contains (approveAccountId c) = true
      · simp [List.filterMap_cons, h, hs, List.filter_cons, ha]
      · simp [List.filterMap_cons, h, hs, List.filter_cons, ha]
    · simp [List.filterMap_cons, h, hs]

theorem collectApprovals_mem (approvers : List String) :
    ∀ (msgs : List JSValue) (acc : List String) (x : String),
      x ∈ collectApprovals approvers msgs acc ↔ x ∈ acc ∨ x ∈ approvalIdsOf approvers msgs := by
  intro msgs
  induction msgs with
  | nil => intro acc x; simp [collectApprovals, approvalIdsOf]
  | cons m rest ih =>
    intro acc x
    rw [approvalIdsOf_cons]
    cases h : msgContent? m with
    | none => simpa [collectApprovals, h] using ih acc x
    | some c =>
      by_cases hs : jsStartsWith "APPROVE:" c = true
      · by_cases ha : approveAccountId c ∈ approvers
        · simp only [collectApprovals, h, hs]
          simp [ha]
          simp [ih, mem_setAdd]
          tauto
        · simp only [collectApprovals, h, hs]
          simp [ha, ih acc x]
      · simp only [collectApprovals, h]
        simp [hs, ih acc x]

theorem collectApprovals_nodup (approvers : List String) :
    ∀ (msgs : List JSValue) (acc : List String), acc.Nodup →
      (collectApprovals approvers msgs acc).Nodup := by
  intro msgs
  induction msgs with
  | nil => intro acc h; simpa [collectApprovals]
  | cons m rest ih =>
    intro acc h
    cases hc : msgContent? m with
    | none => simp only [collectApprovals, hc]; exact ih acc h
    | some c =>
      by_cases hs : jsStartsWith "APPROVE:" c = true
      · by_cases ha : approveAccountId c ∈ approvers
        · simp only [collectApprovals, hc, hs]
          simp [ha]
          exact ih _ (nodup_setAdd acc _ h)
        · simp only [collectApprovals, hc, hs]
          simp [ha]
          exact ih acc h
      · simp only [collectApprovals, hc]
        simp [hs]
        exact ih acc h

theorem collectApprovals_length_le (approvers : List String) :
    ∀ (msgs : List JSValue) (acc : List String),
      acc.length ≤ (collectApprovals approvers msgs acc).length := by
  intro msgs
  induction msgs with
  | nil => intro acc; simp [collectApprovals]
  | cons m rest ih =>
    intro acc
    cases hc : msgContent? m with
    | none => simp only [collectApprovals, hc]; exact ih acc
    | some c =>
      by_cases hs : jsStartsWith "APPROVE:" c = true
      · by_cases ha : approveAccountId c ∈ approvers
        · simp only [collectApprovals, hc, hs]
          simp [ha]
          exact le_trans (length_le_setAdd acc _) (ih _)
        · simp only [collectApprovals, hc, hs]
          simp [ha]
          exact ih acc
      · simp only [collectApprovals, hc]
        simp [hs]
        exact ih acc

theorem collectApprovals_append (approvers : List String) :
    ∀ (M E : List JSValue) (acc : List String),
      collectApprovals approvers (M ++ E) acc =
        collectApprovals approvers E (collectApprovals approvers M acc) := by
  intro M
  induction M with
  | nil => intro E acc; simp [collectApprovals]
  | cons m rest ih =>
    intro E acc
    cases hc : msgContent? m with
    | none => simp only [List.cons_append, collectApprovals, hc]; exact ih E acc
    | some c =>
      by_cases hs : jsStartsWith "APPROVE:" c = true
      · by_cases ha : approveAccountId c ∈ approvers
        · simp only [List.cons_append, collectApprovals, hc, hs]
          simp [ha]
          exact ih E _
        · simp only [List.cons_append, collectApprovals, hc, hs]
          simp [ha]
          exact ih E acc
      · simp only [List.cons_append, collectApprovals, hc]
        simp [hs]
        exact ih E acc

theorem jsStartsWith_append (p e : String) : jsStartsWith p (p ++ e) = true := by
  unfold jsStartsWith
  rw [List.isPrefixOf_iff_prefix]
  show p.data <+: p.data ++ e.data
  exact List.prefix_append _ _

/-- C1: for every list of log messages, every approvers list, and every
threshold, the `approvalCount` returned by `tallyApprovals` equals the
cardinality of the set of identifiers `x` such that some message's content
starts with `APPROVE:` with trimmed remainder `x` and `x` is a configured
approver — each such identifier counted once, non-approver approvals
contributing nothing and raising no error. -/
theorem tallyApprovals_count_eq_card (topicId : String) (approvers : List String)
    (threshold : Nat) (msgs : List JSValue) :
    (tallyApprovals topicId approvers threshold (.ok (.varr msgs))).approvals
      = (approvalIdsOf approvers msgs).toFinset.card ∧
    (tallyApprovals topicId approvers threshold (.ok (.varr msgs))).status = "success" := by
  constructor
  · show (collectApprovals approvers msgs []).length = _
    have hnd := collectApprovals_nodup approvers msgs [] List.nodup_nil
    rw [← List.toFinset_card_of_nodup hnd]
    congr 1
    apply Finset.ext
    intro x
    simp [List.mem_toFinset, collectApprovals_mem]
  · rfl

/-- C2: `isApproved` always equals `approvalCount ≥ threshold`; an empty
history yields count 0, hence `isApproved = false` whenever the documented
precondition `threshold ≥ 1` holds; and `threshold = 0` yields
`isApproved = true` trivially by the comparison (no unsafe operation). -/
theorem tallyApprovals_threshold_correct :
    (∀ (topicId : String) (approvers : List String) (threshold : Nat) (msgs : List JSValue),
      (tallyApprovals topicId approvers threshold (.ok (.varr msgs))).isApproved
        = decide ((tallyApprovals topicId approvers threshold (.ok (.varr msgs))).approvals ≥ threshold)) ∧
    (∀ (topicId : String) (approvers : List String) (threshold : Nat),
      (tallyApprovals topicId approvers threshold (.ok (.varr []))).approvals = 0) ∧
    (∀ (topicId : String) (approvers : List String) (threshold : Nat), 1 ≤ threshold →
      (tallyApprovals topicId approvers threshold (.ok (.varr []))).isApproved = false) ∧
    (∀ (topicId : String) (approvers : List String) (msgs : List JSValue),
      (tallyApprovals topicId approvers 0 (.ok (.varr msgs))).isApproved = true) := by
  refine ⟨fun _ _ _ _ => rfl, fun _ _ _ => rfl, ?_, ?_⟩
  · intro topicId approvers threshold hth
    show decide ((collectApprovals approvers [] []).length ≥ threshold) = false
    simp only [collectApprovals, List.length_nil, decide_eq_false_iff_not]
    omega
  · intro topicId approvers msgs
    show decide ((collectApprovals approvers msgs []).length ≥ 0) = true
    simp

/-- Witness for C2 at concrete inputs. -/
theorem tallyApprovals_threshold_correct_witness :
    (1 ≤ 1 ∧
      (tallyApprovals "0.0.5" ["a"] 1 (.ok (.varr []))).isApproved = false) ∧
    (tallyApprovals "0.0.5" ["a"] 0 (.ok (.varr [mkMsg "x"]))).isApproved = true :=
  ⟨⟨Nat.le_refl 1, tallyApprovals_threshold_correct.2.2.1 "0.0.5" ["a"] 1 (Nat.le_refl 1)⟩,
   tallyApprovals_threshold_correct.2.2.2 "0.0.5" ["a"] [mkMsg "x"]⟩

/-- C4: appending further messages never decreases the tallied count, and
an approved tally can never flip back to unapproved for the same
approvers/threshold. -/
theorem tallyApprovals_monotone (topicId : String) (approvers : List String) (threshold : Nat)
    (M E : List JSValue) :
    (tallyApprovals topicId approvers threshold (.ok (.varr M))).approvals
      ≤ (tallyApprovals topicId approvers threshold (.ok (.varr (M ++ E)))).approvals ∧
    ((tallyApprovals topicId approvers threshold (.ok (.varr M))).isApproved = true →
      (tallyApprovals topicId approvers threshold (.ok (.varr (M ++ E)))).isApproved = true) := by
  have hle : (collectApprovals approvers M []).length
      ≤ (collectApprovals approvers (M ++ E) []).length := by
    rw [collectApprovals_append]
    exact collectApprovals_length_le approvers E _
  refine ⟨hle, ?_⟩
  intro h
  have h1 : threshold ≤ (collectApprovals approvers M []).length := by
    have h' : decide ((collectApprovals approvers M []).length ≥ threshold) = true := h
    simpa using h'
  show decide ((collectApprovals approvers (M ++ E) []).length ≥ threshold) = true
  simp only [decide_eq_true_eq, ge_iff_le]
  omega

/-- Witness for C4 at concrete inputs. -/
theorem tallyApprovals_monotone_witness :
    (tallyApprovals "0.0.5" ["a", "b"] 1 (.ok (.varr [mkMsg "APPROVE:a"]))).isApproved = true ∧
    (tallyApprovals "0.0.5" ["a", "b"] 1
      (.ok (.varr ([mkMsg "APPROVE:a"] ++ [mkMsg "APPROVE:b"])))).isApproved = true :=
  ⟨by decide,
   (tallyApprovals_monotone "0.0.5" ["a", "b"] 1 [mkMsg "APPROVE:a"] [mkMsg "APPROVE:b"]).2 (by decide)⟩

/-- C3: every public operation is total over its result type: for every
input and every collaborator outcome (thrown errors and arbitrary response
values included) the status is `success` or `error`; on `error` the other
fields take safe defaults and the message carries the operation's
human-readable cause. -/
theorem public_operations_total :
    (∀ (d : String) (approvers : List String) (threshold : Nat) (co so : ToolOutcome),
      ((createProposal d approvers threshold co so).status = "success" ∨
       (createProposal d approvers threshold co so).status = "error") ∧
      ((createProposal d approvers threshold co so).status = "error" →
        (createProposal d approvers threshold co so).topicId = none ∧
        jsStartsWith "Failed to create proposal: " (createProposal d approvers threshold co so).message = true)) ∧
    (∀ (topicId accountId : String) (so : ToolOutcome),
      ((submitApproval topicId accountId so).status = "success" ∨
       (submitApproval topicId accountId so).status = "error") ∧
      ((submitApproval topicId accountId so).status = "error" →
        jsStartsWith "Failed to submit approval: " (submitApproval topicId accountId so).message = true)) ∧
    (∀ (topicId : String) (approvers : List String) (threshold : Nat) (o : ToolOutcome),
      ((tallyApprovals topicId approvers threshold o).status = "success" ∨
       (tallyApprovals topicId approvers threshold o).status = "error") ∧
      ((tallyApprovals topicId approvers threshold o).status = "error" →
        (tallyApprovals topicId approvers threshold o).approvals = 0 ∧
        (tallyApprovals topicId approvers threshold o).isApproved = false ∧
        jsStartsWith "Failed to tally approvals: " (tallyApprovals topicId approvers threshold o).message = true)) := by
  refine ⟨?_, ?_, ?_⟩
  · intro d approvers threshold co so
    cases co with
    | threw e => exact ⟨Or.inr rfl, fun _ => ⟨rfl, jsStartsWith_append _ _⟩⟩
    | ok resp =>
      cases hx : extractTopicId resp with
      | error e =>
        refine ⟨?_, ?_⟩
        · right; simp [createProposal, hx]
        · intro _
          constructor
          · simp [createProposal, hx]
          · simp only [createProposal, hx]
            exact jsStartsWith_append _ _
      | ok tid =>
        cases so with
        | threw e =>
          refine ⟨Or.inr (by simp [createProposal, hx]), fun _ => ⟨by simp [createProposal, hx], ?_⟩⟩
          simp only [createProposal, hx]
          exact jsStartsWith_append _ _
        | ok v =>
          refine ⟨Or.inl (by simp [createProposal, hx]), fun hc => absurd hc ?_⟩
          simp [createProposal, hx]
  · intro topicId accountId so
    cases so with
    | threw e => exact ⟨Or.inr rfl, fun _ => jsStartsWith_append _ _⟩
    | ok v => exact ⟨Or.inl rfl, fun hc => absurd hc (by simp [submitApproval])⟩
  · intro topicId approvers threshold o
    cases o with
    | threw e => exact ⟨Or.inr rfl, fun _ => ⟨rfl, rfl, jsStartsWith_append _ _⟩⟩
    | ok resp =>
      cases hx : extractMessages resp with
      | error e =>
        refine ⟨Or.inr (by simp [tallyApprovals, hx]), fun _ => ⟨by simp [tallyApprovals, hx], by simp [tallyApprovals, hx], ?_⟩⟩
        simp only [tallyApprovals, hx]
        exact jsStartsWith_append _ _
      | ok msgs =>
        refine ⟨Or.inl (by simp [tallyApprovals, hx, tallySuccess]), fun hc => absurd hc ?_⟩
        simp [tallyApprovals, hx, tallySuccess]

/-- Witness for C3 at concrete inputs (a thrown create call and a thrown
read call). -/
theorem public_operations_total_witness :
    ((createProposal "d" ["a"] 1 (.threw "boom") (.ok .vnull)).status = "error" →
      (createProposal "d" ["a"] 1 (.threw "boom") (.ok .vnull)).topicId = none ∧
      jsStartsWith "Failed to create proposal: "
        (createProposal "d" ["a"] 1 (.threw "boom") (.ok .vnull)).message = true) ∧
    ((tallyApprovals "0.0.5" ["a"] 1 (.threw "boom")).approvals = 0 ∧
      (tallyApprovals "0.0.5" ["a"] 1 (.threw "boom")).isApproved = false ∧
      jsStartsWith "Failed to tally approvals: "
        (tallyApprovals "0.0.5" ["a"] 1 (.threw "boom")).message = true) :=
  ⟨(public_operations_total.1 "d" ["a"] 1 (.threw "boom") (.ok .vnull)).2,
   (public_operations_total.2.2 "0.0.5" ["a"] 1 (.threw "boom")).2 (by decide)⟩

/-- C10: a read response that is an object without an array-valued
`messages` field is not an error: the history is treated as empty, the
tally succeeds with count 0 and `isApproved = (0 ≥ threshold)`. -/
theorem tallyApprovals_shapeless_object (topicId : String) (approvers : List String)
    (threshold : Nat) (fields : List (String × JSValue)) (ts : String)
    (h : noMessagesArray fields = true) :
    (tallyApprovals topicId approvers threshold (.ok (.vobj fields ts))).status = "success" ∧
    (tallyApprovals topicId approvers threshold (.ok (.vobj fields ts))).approvals = 0 ∧
    (tallyApprovals topicId approvers threshold (.ok (.vobj fields ts))).isApproved
      = decide ((0 : Nat) ≥ threshold) := by
  have hm : messagesArrayOf (.vobj fields ts) = [] := by
    unfold messagesArrayOf
    unfold noMessagesArray at h
    cases hf : getField fields "messages" with
    | none => simp [hf]
    | some v =>
      cases v <;> simp_all [hf]
  have ht : tallyApprovals topicId approvers threshold (.ok (.vobj fields ts))
      = tallySuccess topicId approvers threshold [] := by
    simp [tallyApprovals, extractMessages, hm]
  rw [ht]
  exact ⟨rfl, rfl, rfl⟩

/-- Witness for C10 at a concrete input. -/
theorem tallyApprovals_shapeless_object_witness :
    noMessagesArray [("messages", JSValue.vstr "zzz")] = true ∧
    ((tallyApprovals "0.0.5" ["a"] 1 (.ok (.vobj [("messages", JSValue.vstr "zzz")] "o"))).status = "success" ∧
     (tallyApprovals "0.0.5" ["a"] 1 (.ok (.vobj [("messages", JSValue.vstr "zzz")] "o"))).approvals = 0 ∧
     (tallyApprovals "0.0.5" ["a"] 1 (.ok (.vobj [("messages", JSValue.vstr "zzz")] "o"))).isApproved
       = decide ((0 : Nat) ≥ 1)) :=
  ⟨by decide, tallyApprovals_shapeless_object "0.0.5" ["a"] 1 [("messages", JSValue.vstr "zzz")] "o" (by decide)⟩

theorem collectApprovals_skip (approvers : List String) (junk : JSValue)
    (hj : msgContent? junk = none) :
    ∀ (pre post : List JSValue) (acc : List String),
      collectApprovals approvers (pre ++ junk :: post) acc
        = collectApprovals approvers (pre ++ post) acc := by
  intro pre
  induction pre with
  | nil =>
    intro post acc
    simp [collectApprovals, hj]
  | cons p pre' ih =>
    intro post acc
    calc collectApprovals approvers (p :: pre' ++ junk :: post) acc
        = collectApprovals approvers (pre' ++ junk :: post) (collectApprovals approvers [p] acc) :=
          collectApprovals_append approvers [p] _ acc
      _ = collectApprovals approvers (pre' ++ post) (collectApprovals approvers [p] acc) := ih post _
      _ = collectApprovals approvers (p :: pre' ++ post) acc :=
          (collectApprovals_append approvers [p] _ acc).symm

theorem findProposalInfo_skip (approvers : List String) (threshold : Nat) (junk : JSValue)
    (hj : msgContent? junk = none) :
    ∀ (pre post : List JSValue),
      findProposalInfo approvers threshold (pre ++ junk :: post)
        = findProposalInfo approvers threshold (pre ++ post) := by
  intro pre
  induction pre with
  | nil =>
    intro post
    simp [findProposalInfo, hj]
  | cons p pre' ih =>
    intro post
    cases hc : msgContent? p with
    | none => simp only [List.cons_append, findProposalInfo, hc]; exact ih post
    | some c =>
      by_cases hs : jsStartsWith "Proposal:" c = true
      · simp [findProposalInfo, hc, hs]
      · simp only [List.cons_append, findProposalInfo, hc]
        simp only [hs]
        simp only [Bool.false_eq_true, if_false, ih post]
        simp [Bool.not_eq_true] at hs
        simp [hs, ih post]

theorem tallySuccess_skip (topicId : String) (approvers : List String) (threshold : Nat)
    (junk : JSValue) (hj : msgContent? junk = none) (pre post : List JSValue) :
    tallySuccess topicId approvers threshold (pre ++ junk :: post)
      = tallySuccess topicId approvers threshold (pre ++ post) := by
  simp only [tallySuccess, approvedMessage]
  rw [collectApprovals_skip approvers junk hj pre post,
      findProposalInfo_skip approvers threshold junk hj pre post]

/-- C6: the read-messages normalizer takes an array response as the
message sequence itself, takes the array-valued `messages` field of an
object response, skips (without error and without effect on the result)
any entry lacking a string message-content field, and the concrete
JSON-string response of the spec scenario yields exactly the single
content "APPROVE:a". -/
theorem messages_normalizer_correct :
    (∀ xs : List JSValue, extractMessages (.varr xs) = .ok xs) ∧
    (∀ (fields : List (String × JSValue)) (ts : String) (xs : List JSValue),
      getField fields "messages" = some (.varr xs) → extractMessages (.vobj fields ts) = .ok xs) ∧
    (∀ (topicId : String) (approvers : List String) (threshold : Nat)
        (pre post : List JSValue) (junk : JSValue),
      msgContent? junk = none →
      tallyApprovals topicId approvers threshold (.ok (.varr (pre ++ junk :: post)))
        = tallyApprovals topicId approvers threshold (.ok (.varr (pre ++ post)))) ∧
    ((extractMessages (.vstr "\x7b\"messages\":[\x7b\"message\":\"APPROVE:a\"\x7d]\x7d")).map messageContents
      = .ok ["APPROVE:a"]) := by
  refine ⟨fun xs => rfl, ?_, ?_, rfl⟩
  · intro fields ts xs h
    simp [extractMessages, messagesArrayOf, h]
  · intro topicId approvers threshold pre post junk hj
    show tallySuccess topicId approvers threshold (pre ++ junk :: post)
      = tallySuccess topicId approvers threshold (pre ++ post)
    exact tallySuccess_skip topicId approvers threshold junk hj pre post

/-- Witness for C6 at concrete inputs. -/
theorem messages_normalizer_correct_witness :
    (getField [("messages", JSValue.varr [mkMsg "APPROVE:a"])] "messages"
        = some (.varr [mkMsg "APPROVE:a"]) ∧
      extractMessages (.vobj [("messages", JSValue.varr [mkMsg "APPROVE:a"])] "o")
        = .ok [mkMsg "APPROVE:a"]) ∧
    (msgContent? .vnull = none ∧
      tallyApprovals "0.0.5" ["a"] 1 (.ok (.varr ([mkMsg "APPROVE:a"] ++ JSValue.vnull :: [])))
        = tallyApprovals "0.0.5" ["a"] 1 (.ok (.varr ([mkMsg "APPROVE:a"] ++ [])))) :=
  ⟨⟨rfl,
    messages_normalizer_correct.2.1 [("messages", JSValue.varr [mkMsg "APPROVE:a"])] "o"
      [mkMsg "APPROVE:a"] rfl⟩,
   ⟨rfl,
    messages_normalizer_correct.2.2.1 "0.0.5" ["a"] 1 [mkMsg "APPROVE:a"] [] JSValue.vnull rfl⟩⟩

/-- C9: the report's proposal description comes from the first message in
log order whose content starts with `Proposal:` (later Proposal-shaped
messages are ignored); with no such message the extraction falls back to
its placeholder and the tally still succeeds. -/
theorem proposal_description_first_match :
    (∀ (approvers : List String) (threshold : Nat) (pre post : List JSValue)
        (m : JSValue) (content : String),
      (∀ m' ∈ pre, isProposalMsg m' = false) →
      msgContent? m = some content → jsStartsWith "Proposal:" content = true →
      findProposalInfo approvers threshold (pre ++ m :: post)
        = ((decodeProposalDescription content).getD "Proposal details not found.",
           approvers, toString threshold)) ∧
    (∀ (approvers : List String) (threshold : Nat) (msgs : List JSValue),
      (∀ m' ∈ msgs, isProposalMsg m' = false) →
      findProposalInfo approvers threshold msgs = ("Proposal details not found.", [], "N/A")) ∧
    (∀ (topicId : String) (approvers : List String) (threshold : Nat) (msgs : List JSValue),
      (∀ m' ∈ msgs, isProposalMsg m' = false) →
      (tallyApprovals topicId approvers threshold (.ok (.varr msgs))).status = "success") := by
  refine ⟨?_, ?_, fun _ _ _ _ _ => rfl⟩
  · intro approvers threshold pre
    induction pre with
    | nil =>
      intro post m content _ hm hs
      simp [findProposalInfo, hm, hs]
    | cons p pre' ih =>
      intro post m content hpre hm hs
      have hp : isProposalMsg p = false := hpre p (List.mem_cons_self p pre')
      have hpre' : ∀ m' ∈ pre', isProposalMsg m' = false :=
        fun m' hm' => hpre m' (List.mem_cons_of_mem p hm')
      cases hc : msgContent? p with
      | none =>
        simp only [List.cons_append, findProposalInfo, hc]
        exact ih post m content hpre' hm hs
      | some c =>
        have hcs : jsStartsWith "Proposal:" c = false := by
          simpa [isProposalMsg, hc] using hp
        simp only [List.cons_append, findProposalInfo, hc, hcs]
        simp only [Bool.false_eq_true, if_false]
        exact ih post m content hpre' hm hs
  · intro approvers threshold msgs
    induction msgs with
    | nil => intro _; rfl
    | cons p rest ih =>
      intro h
      have hp : isProposalMsg p = false := h p (List.mem_cons_self p rest)
      have hrest : ∀ m' ∈ rest, isProposalMsg m' = false :=
        fun m' hm' => h m' (List.mem_cons_of_mem p hm')
      cases hc : msgContent? p with
      | none => simp only [findProposalInfo, hc]; exact ih hrest
      | some c =>
        have hcs : jsStartsWith "Proposal:" c = false := by
          simpa [isProposalMsg, hc] using hp
        simp only [findProposalInfo, hc, hcs]
        simp only [Bool.false_eq_true, if_false]
        exact ih hrest

/-- Witness for C9 at concrete inputs: the first of two Proposal-shaped
messages wins, after a non-Proposal message. -/
theorem proposal_description_first_match_witness :
    findProposalInfo ["a"] 1
        ([mkMsg "APPROVE:a"] ++ mkMsg "Proposal: X\nApprovers: a\nThreshold: 1" :: [mkMsg "Proposal: Y"])
      = ((decodeProposalDescription "Proposal: X\nApprovers: a\nThreshold: 1").getD
           "Proposal details not found.", ["a"], toString 1) ∧
    findProposalInfo ["a"] 1 [mkMsg "APPROVE:a", JSValue.vnull] = ("Proposal details not found.", [], "N/A") :=
  ⟨proposal_description_first_match.1 ["a"] 1 [mkMsg "APPROVE:a"] [mkMsg "Proposal: Y"]
      (mkMsg "Proposal: X\nApprovers: a\nThreshold: 1") "Proposal: X\nApprovers: a\nThreshold: 1"
      (by decide) (by decide) (by decide),
   proposal_description_first_match.2.1 ["a"] 1 [mkMsg "APPROVE:a", JSValue.vnull] (by decide)⟩

theorem takeWhile_append_of_all (p : Char → Bool) (l₁ l₂ : List Char)
    (h : ∀ c ∈ l₁, p c = true) :
    (l₁ ++ l₂).takeWhile p = l₁ ++ l₂.takeWhile p := by
  induction l₁ with
  | nil => simp
  | cons c t ih =>
    have hc : p c = true := h c (List.mem_cons_self c t)
    simp only [List.cons_append, List.takeWhile_cons, hc, if_true]
    rw [ih (fun x hx => h x (List.mem_cons_of_mem c hx))]

theorem takeWhile_cons_of_neg (p : Char → Bool) (c : Char) (l : List Char)
    (h : p c = false) : (c :: l).takeWhile p = [] := by
  simp [List.takeWhile_cons, h]

theorem length_dropWhile_le_chars (p : Char → Bool) (l : List Char) :
    (l.dropWhile p).length ≤ l.length := by
  induction l with
  | nil => simp
  | cons c t ih =>
    rw [List.dropWhile_cons]
    by_cases hc : p c = true
    · simp only [hc, if_true]
      exact Nat.le_succ_of_le ih
    · simp [hc]

theorem length_trimChars_le (l : List Char) :
    (trimChars l).length ≤ (l.dropWhile jsIsWs).length := by
  unfold trimChars
  calc ((((l.dropWhile jsIsWs).reverse.dropWhile jsIsWs)).reverse).length
      = ((l.dropWhile jsIsWs).reverse.dropWhile jsIsWs).length :=
        List.length_reverse _
    _ ≤ (l.dropWhile jsIsWs).reverse.length := length_dropWhile_le_chars _ _
    _ = (l.dropWhile jsIsWs).length := List.length_reverse _

theorem dropWhile_of_trimChars_fix (l : List Char) (h : trimChars l = l) :
    l.dropWhile jsIsWs = l := by
  cases hl : l with
  | nil => rfl
  | cons c t =>
    by_cases hc : jsIsWs c = true
    · exfalso
      have h1 : (trimChars (c :: t)).length ≤ (t.dropWhile jsIsWs).length := by
        have := length_trimChars_le (c :: t)
        simpa [List.dropWhile_cons, hc] using this
      have h2 : (t.dropWhile jsIsWs).length ≤ t.length := length_dropWhile_le_chars _ _
      rw [hl] at h
      rw [h] at h1
      simp at h1
      omega
    · simp [List.dropWhile_cons, hc]

theorem head_not_ws_of_trimChars_fix (l : List Char) (h : trimChars l = l) :
    l = [] ∨ ∃ c t, l = c :: t ∧ jsIsWs c = false := by
  cases hl : l with
  | nil => exact Or.inl rfl
  | cons c t =>
    right
    refine ⟨c, t, rfl, ?_⟩
    have hd := dropWhile_of_trimChars_fix l h
    rw [hl] at hd
    by_cases hc : jsIsWs c = true
    · exfalso
      rw [List.dropWhile_cons, if_pos hc] at hd
      have := congrArg List.length hd
      have h2 : (t.dropWhile jsIsWs).length ≤ t.length := length_dropWhile_le_chars _ _
      simp at this
      omega
    · simpa using hc
theorem mk_data (l : List Char) : (String.mk l).data = l := rfl

theorem proposal_roundtrip_counterexample :
    decodeProposalDescription (initialMessage "a\nb" ["x"] 1) = some "a" ∧ "a" ≠ "a\nb" := by
  refine ⟨rfl, by decide⟩

theorem initialMessage_firstLine (desc : String) (approvers : List String) (threshold : Nat)
    (hn : '\n' ∉ desc.data) :
    firstLine (initialMessage desc approvers threshold) = ⟨"Proposal: ".data ++ desc.data⟩ := by
  apply String.ext
  show ((initialMessage desc approvers threshold).data.takeWhile (fun c => c ≠ '\n'))
      = "Proposal: ".data ++ desc.data
  have hd : (initialMessage desc approvers threshold).data
      = "Proposal: ".data ++ (desc.data ++ ('\n' :: ("Approvers: ".data ++
          ((jsJoin ", " approvers).data ++ ('\n' :: ("Threshold: ".data ++ (toString threshold).data)))))) := by
    show ("Proposal: " ++ desc ++ "\nApprovers: " ++ jsJoin ", " approvers ++ "\nThreshold: " ++ toString threshold).data = _
    simp only [String.data_append]
    simp [List.append_assoc]
  rw [hd]
  rw [takeWhile_append_of_all _ _ _ (by decide)]
  rw [takeWhile_append_of_all _ _ _ (fun c hc => by
    simp only [decide_eq_true_eq]
    intro hceq
    exact hn (hceq ▸ hc))]
  rw [takeWhile_cons_of_neg _ _ _ (by decide)]
  simp

/-- C8 (amended): encoding a Proposal and decoding the description of the
resulting log message returns the description unchanged, provided the
description contains no line-terminator character (LF, CR, U+2028,
U+2029 — which the decoding regex's dot never matches) and is its own
trim; the untruncated log copy is used (counterexample: a description
with an embedded newline decodes to its first line only). -/
theorem proposal_roundtrip_amended (desc : String) (approvers : List String) (threshold : Nat)
    (hlt : ∀ c ∈ desc.data, isLineTerm c = false) (ht : jsTrim desc = desc) :
    decodeProposalDescription (initialMessage desc approvers threshold) = some desc := by
  have htrim : trimChars desc.data = desc.data := congrArg String.data ht
  have hn : '\n' ∉ desc.data := by
    intro hmem
    have := hlt '\n' hmem
    simp [isLineTerm] at this
  have hany : desc.data.any isLineTerm = false := by
    rw [List.any_eq_false]
    intro c hc
    simp [hlt c hc]
  have hfl := initialMessage_firstLine desc approvers threshold hn
  have hstart : jsStartsWith "Proposal:" (⟨"Proposal: ".data ++ desc.data⟩ : String) = true := by
    unfold jsStartsWith
    rw [List.isPrefixOf_iff_prefix]
    show "Proposal:".data <+: ("Proposal: ".data ++ desc.data)
    have : "Proposal: ".data = "Proposal:".data ++ [' '] := by decide
    rw [this, List.append_assoc]
    exact List.prefix_append _ _
  have hdrop : (("Proposal: ".data ++ desc.data).drop 9) = ' ' :: desc.data := by
    have h9 : (9 : Nat) ≤ "Proposal: ".data.length := by decide
    rw [List.drop_append_of_le_length h9]
    have : "Proposal: ".data.drop 9 = [' '] := by decide
    rw [this]
    rfl
  unfold decodeProposalDescription
  rw [hfl]
  unfold proposalDescMatch
  rw [hstart, if_pos rfl]
  rw [mk_data, hdrop]
  rcases head_not_ws_of_trimChars_fix desc.data htrim with hnil | ⟨c, t, hct, hcw⟩
  · -- empty description
    have hdesc : desc = "" := String.ext hnil
    rw [hnil, hdesc]
    rfl
  · -- description with a head that is not JS whitespace
    have hdw : ((' ' :: desc.data).dropWhile jsIsWs) = desc.data := by
      rw [List.dropWhile_cons, if_pos (by decide)]
      exact dropWhile_of_trimChars_fix desc.data htrim
    rw [if_neg (by simp)]
    rw [hdw]
    rw [hct]
    simp only [List.isEmpty_cons, if_false]
    rw [if_neg (by simp)]
    rw [← hct]
    rw [if_neg (by simp [hany])]
    show some (jsTrim ⟨desc.data⟩) = some desc
    unfold jsTrim
    rw [mk_data, htrim]

/-- Witness for the amended C8 at a concrete description. -/
theorem proposal_roundtrip_amended_witness :
    ((∀ c ∈ "Buy gear".data, isLineTerm c = false) ∧ jsTrim "Buy gear" = "Buy gear") ∧
    decodeProposalDescription (initialMessage "Buy gear" ["a", "b"] 2) = some "Buy gear" :=
  ⟨⟨by decide, by decide⟩,
   proposal_roundtrip_amended "Buy gear" ["a", "b"] 2 (by decide) (by decide)⟩

theorem infix_cons_left (a l r : List Char) (h : l <:+: r) : l <:+: a ++ r := by
  rcases h with ⟨s, t, hst⟩
  exact ⟨a ++ s, t, by rw [← hst]; simp [List.append_assoc]⟩

theorem infix_split (full pre l₁ l₂ t : List Char) (h : full = pre ++ l₁) :
    (l₁ ++ l₂) <:+: full ++ (l₂ ++ t) := by
  subst h
  exact ⟨pre, t, by simp [List.append_assoc]⟩

theorem foldl_append_join (xs : List String) :
    ∀ init : String, xs.foldl (fun acc a => acc ++ a) init = init ++ String.join xs := by
  induction xs with
  | nil => intro init; simp [String.join, String.append_empty]
  | cons x rest ih =>
    intro init
    show rest.foldl (fun acc a => acc ++ a) (init ++ x) = init ++ String.join (x :: rest)
    rw [ih (init ++ x)]
    have hj : String.join (x :: rest) = x ++ String.join rest := by
      show (x :: rest).foldl (fun acc a => acc ++ a) "" = x ++ String.join rest
      show rest.foldl (fun acc a => acc ++ a) ("" ++ x) = x ++ String.join rest
      rw [ih ("" ++ x)]
      congr 1
    rw [hj, String.append_assoc]

theorem foldl_line_join (f : String → String) (xs : List String) (init : String) :
    xs.foldl (fun acc a => acc ++ f a) init = init ++ String.join (xs.map f) := by
  rw [← List.foldl_map]
  exact foldl_append_join (xs.map f) init

theorem findProposalInfo_approvers (approvers : List String) (threshold : Nat) :
    ∀ msgs : List JSValue, (∃ m ∈ msgs, isProposalMsg m = true) →
      (findProposalInfo approvers threshold msgs).2.1 = approvers := by
  intro msgs
  induction msgs with
  | nil => rintro ⟨m, hm, _⟩; cases hm
  | cons p rest ih =>
    rintro ⟨m, hm, hpm⟩
    cases hc : msgContent? p with
    | none =>
      simp only [findProposalInfo, hc]
      apply ih
      rcases List.mem_cons.mp hm with rfl | hm'
      · exact absurd hpm (by simp [isProposalMsg, hc])
      · exact ⟨m, hm', hpm⟩
    | some c =>
      by_cases hs : jsStartsWith "Proposal:" c = true
      · simp [findProposalInfo, hc, hs]
      · simp only [findProposalInfo, hc]
        rw [if_neg (by simpa using hs)]
        apply ih
        rcases List.mem_cons.mp hm with rfl | hm'
        · exact absurd hpm (by simp [isProposalMsg, hc, hs])
        · exact ⟨m, hm', hpm⟩

/-- Counterexample to C7 as stated: an approved tally whose log has no
Proposal-record message renders a report that names no approver at all. -/
theorem approved_report_counterexample :
    (tallyApprovals "0.0.77" ["a"] 1 (.ok (.varr [mkMsg "APPROVE:a"]))).isApproved = true ∧
    (tallyApprovals "0.0.77" ["a"] 1 (.ok (.varr [mkMsg "APPROVE:a"]))).status = "success" ∧
    ¬ substrOf "- a (approved)"
        (tallyApprovals "0.0.77" ["a"] 1 (.ok (.varr [mkMsg "APPROVE:a"]))).message ∧
    ¬ substrOf "- a (not approved)"
        (tallyApprovals "0.0.77" ["a"] 1 (.ok (.varr [mkMsg "APPROVE:a"]))).message :=
  ⟨rfl, rfl, by decide, by decide⟩

/-- C7 (amended): for every approved tally whose log contains a
Proposal-record message, the report carries the enumerated list of every
configured approver, sorted lexicographically, each annotated according to
membership in the deduplicated approval set, together with the fixed-format
verification URL built from the log identifier (without a Proposal record
the enumeration is empty, per the counterexample). -/
theorem approved_report_enumerates (topicId : String) (approvers : List String)
    (threshold : Nat) (msgs : List JSValue)
    (happ : (tallyApprovals topicId approvers threshold (.ok (.varr msgs))).isApproved = true)
    (hprop : ∃ m ∈ msgs, isProposalMsg m = true) :
    substrOf ("Approvers:\n" ++ approverEnumeration approvers (collectApprovals approvers msgs []))
      (tallyApprovals topicId approvers threshold (.ok (.varr msgs))).message ∧
    substrOf ("https://hashscan.io/testnet/topic/" ++ topicId)
      (tallyApprovals topicId approvers threshold (.ok (.varr msgs))).message := by
  have hdec : decide ((collectApprovals approvers msgs []).length ≥ threshold) = true := happ
  have hfa : (findProposalInfo approvers threshold msgs).2.1 = approvers :=
    findProposalInfo_approvers approvers threshold msgs hprop
  have hmsg : (tallyApprovals topicId approvers threshold (.ok (.varr msgs))).message
      = approvedMessage topicId approvers threshold msgs (collectApprovals approvers msgs [])
          (collectApprovals approvers msgs []).length := by
    show (tallySuccess topicId approvers threshold msgs).message = _
    simp only [tallySuccess]
    rw [if_pos hdec]
  rw [hmsg]
  unfold approvedMessage
  rw [hfa]
  rw [foldl_line_join (approverLine (collectApprovals approvers msgs [])) (sortStr approvers) ""]
  have hblock : ("" : String) ++ String.join ((sortStr approvers).map
      (approverLine (collectApprovals approvers msgs [])))
      = approverEnumeration approvers (collectApprovals approvers msgs []) := by
    unfold approverEnumeration
    congr 1
  rw [hblock]
  constructor
  · unfold substrOf
    simp only [String.data_append, List.append_assoc]
    repeat
      first
      | exact infix_split _ [] _ _ _ (by decide)
      | apply infix_cons_left
  · unfold substrOf
    simp only [String.data_append, List.append_assoc]
    repeat
      first
      | exact infix_split _ ("🔗 View the immutable approval record on HashScan: ").data _ _ _ (by decide)
      | apply infix_cons_left

/-- Witness for the amended C7 at the spec's scenario. -/
theorem approved_report_enumerates_witness :
    substrOf ("Approvers:\n" ++ approverEnumeration ["a", "b", "c"]
        (collectApprovals ["a", "b", "c"] scenarioMsgs []))
      (tallyApprovals "0.0.1" ["a", "b", "c"] 2 (.ok (.varr scenarioMsgs))).message ∧
    substrOf ("https://hashscan.io/testnet/topic/" ++ "0.0.1")
      (tallyApprovals "0.0.1" ["a", "b", "c"] 2 (.ok (.varr scenarioMsgs))).message :=
  approved_report_enumerates "0.0.1" ["a", "b", "c"] 2 scenarioMsgs (by decide)
    (by decide)

theorem ne_empty_of_includes (s : String) (c : Char) (h : jsIncludes s c = true) : ¬ s = "" := by
  intro hs
  subst hs
  simpa [jsIncludes] using h

theorem getProp_vobj (fields : List (String × JSValue)) (ts k : String) :
    getProp (.vobj fields ts) k = getField fields k := rfl

theorem valid_ite (s : String) :
    (if ¬ s = "" ∧ jsIncludes s '.' = true then some s else none)
      = (if jsIncludes s '.' = true then some s else none) := by
  by_cases h : jsIncludes s '.' = true
  · rw [if_pos h, if_pos ⟨ne_empty_of_includes s '.' h, h⟩]
  · rw [if_neg h, if_neg (fun hc => h hc.2)]

theorem isTruthyObject_of_getProp (r : JSValue) (k : String) (x : JSValue)
    (h : getProp r k = some x) : isTruthyObject r = true := by
  cases r <;> first | rfl | simp [getProp] at h

theorem extractFromParsed_eq_claimChainAmended (p : JSValue) :
    extractFromParsed p = claimChainAmended p := by
  cases p with
  | vstr s => rfl
  | vbool b => rfl
  | vnull => rfl
  | vother => rfl
  | varr elems =>
    simp [extractFromParsed, claimChainAmended, claimShape1, claimShape2, claimShape4, getProp,
      isTruthyObject, optIsTruthyObject, optIsString, optAsString]
  | vobj fields ts =>
    rcases hr : getField fields "receipt" with _ | r
    · rcases ht : getField fields "topicId" with _ | t
      · simp only [extractFromParsed, claimChainAmended, claimShape1, claimShape2, claimShape4,
          getProp_vobj, hr, ht]
        simp [optIsTruthyObject, optIsString, optAsString, isTruthyObject]
      · cases t <;>
          · simp only [extractFromParsed, claimChainAmended, claimShape1, claimShape2, claimShape4,
              getProp_vobj, hr, ht]
            simp [optIsTruthyObject, optIsString, optAsString, isTruthyObject, valid_ite]
    · rcases hrt : getProp r "topicId" with _ | rt
      · rcases ht : getField fields "topicId" with _ | t
        · simp only [extractFromParsed, claimChainAmended, claimShape1, claimShape2, claimShape4,
            getProp_vobj, hr, ht]
          simp [hrt, optIsTruthyObject, optIsString, optAsString, valid_ite]
        · cases t <;>
            · simp only [extractFromParsed, claimChainAmended, claimShape1, claimShape2, claimShape4,
                getProp_vobj, hr, ht]
              simp [hrt, optIsTruthyObject, optIsString, optAsString, valid_ite, isTruthyObject]
      · have hrobj : isTruthyObject r = true := isTruthyObject_of_getProp r "topicId" rt hrt
        rcases ht : getField fields "topicId" with _ | t
        · cases rt <;>
            · simp only [extractFromParsed, claimChainAmended, claimShape1, claimShape2, claimShape4,
                getProp_vobj, hr, ht]
              simp [hrt, hrobj, optIsTruthyObject, optIsString, optAsString, valid_ite] <;>
                simp [isTruthyObject, valid_ite]
        · cases rt <;> cases t <;>
            · simp only [extractFromParsed, claimChainAmended, claimShape1, claimShape2, claimShape4,
                getProp_vobj, hr, ht]
              simp [hrt, hrobj, optIsTruthyObject, optIsString, optAsString, valid_ite] <;>
                simp [isTruthyObject, valid_ite]

theorem extractTopicId_toOption_eq (v : JSValue) :
    (extractTopicId v).toOption = (claimExtractAmended v).toOption := by
  have core : ∀ p : JSValue,
      (finishTopicId (extractFromParsed p)).toOption
        = (match claimChainAmended p with
           | some id => if id = "" then Except.error "MalformedResponse" else Except.ok id
           | none => (Except.error "MalformedResponse" : Except String String)).toOption := by
    intro p
    rw [extractFromParsed_eq_claimChainAmended]
    rcases hc : claimChainAmended p with _ | id
    · rfl
    · by_cases hid : id = ""
      · simp [finishTopicId, hid, Except.toOption]
      · simp [finishTopicId, hid]
  cases v with
  | vstr s =>
    cases hp : jsonParse s with
    | none => simp [extractTopicId, claimExtractAmended, hp, Except.toOption]
    | some p =>
      simp only [extractTopicId, claimExtractAmended, hp]
      exact core p
  | vobj fields ts => exact core (.vobj fields ts)
  | varr elems => exact core (.varr elems)
  | vbool b => rfl
  | vnull => rfl
  | vother => rfl

/-- Counterexample to C5 as stated: when the top-level identifier is
object-typed but its stringification lacks the separator, the code fails
without trying shape (4), while the claim's first-match-wins order would
extract the receipt-nested identifier. -/
theorem topicid_normalizer_counterexample :
    (extractTopicId (.vobj [("topicId", .vobj [] "xx"),
        ("receipt", .vobj [("topicId", .vobj [] "0.0.9")] "r")] "p")).toOption = none ∧
    (claimExtract (.vobj [("topicId", .vobj [] "xx"),
        ("receipt", .vobj [("topicId", .vobj [] "0.0.9")] "r")] "p")).toOption = some "0.0.9" :=
  ⟨rfl, rfl⟩

/-- C5 (amended): the extraction follows the four shapes in order, except
that shape (3)'s guard is object-typedness alone — a top-level object
identifier whose stringification lacks the separator fails the operation
without shape (4) being tried — and an extracted empty-string identifier
also fails; logically-equivalent responses in the four recognized shapes
yield the identical canonical identifier. -/
theorem topicid_normalizer_amended :
    (∀ v : JSValue, (extractTopicId v).toOption = (claimExtractAmended v).toOption) ∧
    (∀ s : String, jsIncludes s '.' = true →
      (extractTopicId (.vobj [("topicId", .vstr s)] "[object Object]")).toOption = some s ∧
      (extractTopicId (.vobj [("receipt", .vobj [("topicId", .vstr s)] "[object Object]")]
          "[object Object]")).toOption = some s ∧
      (extractTopicId (.vobj [("topicId", .vobj [] s)] "[object Object]")).toOption = some s ∧
      (extractTopicId (.vobj [("receipt", .vobj [("topicId", .vobj [] s)] "[object Object]")]
          "[object Object]")).toOption = some s) := by
  refine ⟨extractTopicId_toOption_eq, ?_⟩
  intro s hs
  have hne : ¬ s = "" := ne_empty_of_includes s '.' hs
  refine ⟨?_, ?_, ?_, ?_⟩ <;>
    simp [extractTopicId, finishTopicId, extractFromParsed, getProp, getField,
      optIsTruthyObject, optIsString, optAsString, isTruthyObject, jsToString, hs, hne,
      Except.toOption]

/-- Witness for the amended C5 at a concrete identifier. -/
theorem topicid_normalizer_amended_witness :
    jsIncludes "0.0.123" '.' = true ∧
    ((extractTopicId (.vobj [("topicId", .vstr "0.0.123")] "[object Object]")).toOption
        = some "0.0.123" ∧
      (extractTopicId (.vobj [("receipt", .vobj [("topicId", .vstr "0.0.123")] "[object Object]")]
          "[object Object]")).toOption = some "0.0.123" ∧
      (extractTopicId (.vobj [("topicId", .vobj [] "0.0.123")] "[object Object]")).toOption
        = some "0.0.123" ∧
      (extractTopicId (.vobj [("receipt", .vobj [("topicId", .vobj [] "0.0.123")] "[object Object]")]
          "[object Object]")).toOption = some "0.0.123") :=
  ⟨by decide, topicid_normalizer_amended.2 "0.0.123" (by decide)⟩
